import Mathlib

/-
Verification development for the timetable conversion pipeline
(ERP upload + CBS template output).

The Python source (timetable.py) is shallowly embedded here:
  - pandas string cells are Lean `String`s; a possibly-missing cell is
    an `Option String` (with `none` playing the role of NaN);
  - the regular expressions of the source are embedded as explicit
    recursive matchers over `List Char`, following the behaviour of
    Python `re` on the (whitespace-normalised) inputs the source feeds
    them;
  - Python `str.upper()` is embedded as an ASCII case map (`upChar`),
    which is what the source relies on for its lecturer codes and
    program identifiers;
  - `datetime.strptime(t, time_format_hm)` is embedded as a parser to
    minutes-of-day returning `Option Nat` (`none` models the raised
    ValueError), and `strftime` of the span bounds as `fmt_time_hhmmss`;
  - the `sorted(...)` builtin is embedded as an insertion sort;
  - `DataFrame.groupby` over the session-key columns is embedded by
    taking the distinct key tuples (first-occurrence order; the source
    iterates groups in sorted-key order, an ordering that none of the
    verified properties depend on) and filtering the row list per key.

Definitions keep the source names where possible.
-/

/- ---------------------------------------------------------------
   Generic list helpers
   --------------------------------------------------------------- -/

/-- First-occurrence deduplication, the semantics of `pandas.unique`
and of first-wins dict insertion: keep an element only if it has not
been seen before. -/
def uniqueFirstAux {α : Type} [DecidableEq α] (seen : List α) : List α → List α
  | [] => []
  | a :: l => if a ∈ seen then uniqueFirstAux seen l else a :: uniqueFirstAux (a :: seen) l

def uniqueFirst {α : Type} [DecidableEq α] (l : List α) : List α :=
  uniqueFirstAux [] l

/-- Insertion step of the sort used to embed the Python `sorted` builtin. -/
def insLe {α : Type} (le : α → α → Bool) (a : α) : List α → List α
  | [] => [a]
  | b :: l => if le a b then a :: b :: l else b :: insLe le a l

/-- Insertion sort with a boolean comparison; embeds Python `sorted`. -/
def sortLe {α : Type} (le : α → α → Bool) : List α → List α
  | [] => []
  | a :: l => insLe le a (sortLe le l)

def natLeB (a b : Nat) : Bool := decide (a ≤ b)

/-- Lexicographic comparison on code points, the ordering Python uses
when sorting strings. -/
def listLeB : List Char → List Char → Bool
  | [], _ => true
  | _ :: _, [] => false
  | a :: as, b :: bs =>
    if a.val < b.val then true else if b.val < a.val then false else listLeB as bs

def strLeB (a b : String) : Bool := listLeB a.data b.data

/-- Embeds Python `sep.join(parts)`. -/
def joinSep (sep : String) : List String → String
  | [] => ""
  | [a] => a
  | a :: b :: t => a ++ sep ++ joinSep sep (b :: t)

/-- Last element of `a :: l`; embeds the `[-1]` indexing of the source. -/
def lastOf (a : Nat) : List Nat → Nat
  | [] => a
  | b :: t => lastOf b t

/-- Boolean list-prefix test (used by the substring test below). -/
def isPre : List Char → List Char → Bool
  | [], _ => true
  | _ :: _, [] => false
  | a :: as, b :: bs => a == b && isPre as bs

/-- Boolean substring test; embeds the Python `needle in hay` test on
strings (as lists of characters). -/
def hasSub : List Char → List Char → Bool
  | [], needle => isPre needle []
  | c :: t, needle => isPre needle (c :: t) || hasSub t needle

/-- Split a character list at every occurrence of `sep`, keeping empty
chunks; embeds Python `str.split(sep)` for a one-character separator. -/
def splitOnChar (sep : Char) : List Char → List (List Char)
  | [] => [[]]
  | c :: cs =>
    if c == sep then [] :: splitOnChar sep cs
    else
      match splitOnChar sep cs with
      | [] => [[c]]
      | p :: ps => (c :: p) :: ps

/- ---------------------------------------------------------------
   Characters: ASCII upper-casing and the character classes used by
   the embedded regular expressions
   --------------------------------------------------------------- -/

/-- ASCII upper-casing of one character; embeds the effect of Python
`str.upper()` on the ASCII data this pipeline handles. -/
def upChar (c : Char) : Char :=
  if c = 'a' then 'A' else if c = 'b' then 'B' else if c = 'c' then 'C'
  else if c = 'd' then 'D' else if c = 'e' then 'E' else if c = 'f' then 'F'
  else if c = 'g' then 'G' else if c = 'h' then 'H' else if c = 'i' then 'I'
  else if c = 'j' then 'J' else if c = 'k' then 'K' else if c = 'l' then 'L'
  else if c = 'm' then 'M' else if c = 'n' then 'N' else if c = 'o' then 'O'
  else if c = 'p' then 'P' else if c = 'q' then 'Q' else if c = 'r' then 'R'
  else if c = 's' then 'S' else if c = 't' then 'T' else if c = 'u' then 'U'
  else if c = 'v' then 'V' else if c = 'w' then 'W' else if c = 'x' then 'X'
  else if c = 'y' then 'Y' else if c = 'z' then 'Z' else c

def strUpper (s : String) : String := String.mk (s.data.map upChar)

/-- The class matched by the regex `\w` (ASCII), used for the `\b`
word-boundary tests. -/
def isWordChar (c : Char) : Bool := c.isAlpha || c.isDigit || c == '_'

/-- The class matched by `[A-Z&]` under `re.IGNORECASE`. -/
def isProgChar (c : Char) : Bool := c.isAlpha || c == '&'

/-- Decimal value of a digit run; embeds Python `int` on a digit string. -/
def natOfDigits (ds : List Char) : Nat :=
  ds.foldl (fun a c => a * 10 + (c.toNat - 48)) 0

/- ---------------------------------------------------------------
   Text normalizer: norm(s) = re.sub of whitespace runs to one space,
   then strip
   --------------------------------------------------------------- -/

/-- Replace every maximal whitespace run with a single space (the
`re.sub` of whitespace-plus to one space); the flag records whether the
previous character was whitespace. -/
def collapseWsAux : Bool → List Char → List Char
  | _, [] => []
  | prevWs, c :: cs =>
    if c.isWhitespace then
      if prevWs then collapseWsAux true cs else ' ' :: collapseWsAux true cs
    else c :: collapseWsAux false cs

/-- Strip leading and trailing whitespace; embeds Python `str.strip()`. -/
def stripChars (cs : List Char) : List Char :=
  ((cs.dropWhile Char.isWhitespace).reverse.dropWhile Char.isWhitespace).reverse

def normData (cs : List Char) : List Char :=
  stripChars (collapseWsAux false cs)

/-- The source `norm` helper: collapse whitespace runs and trim. -/
def norm (s : String) : String := String.mk (normData s.data)

/-- Embeds Python `str.strip()` on strings. -/
def pyStrip (s : String) : String := String.mk (stripChars s.data)

/- ---------------------------------------------------------------
   Lecturer code resolver
   --------------------------------------------------------------- -/

/-- The source `split_teacher_codes`: split the raw cell on plus signs,
trim every token and drop empty tokens; a missing cell gives the empty
list. -/
def split_teacher_codes (raw_teachers : Option String) : List String :=
  match raw_teachers with
  | none => []
  | some s => ((splitOnChar '+' s.data).map (fun cs => String.mk (stripChars cs))).filter
      (fun t => t != "")

/-- The resolution loop of `map_teachers`: build the mapped list and the
unknown list in input order (an unknown code is kept verbatim in both). -/
def map_teachers_aux (code_map : List (String × String)) : List String → List String × List String
  | [] => ([], [])
  | c :: cs =>
    let rest := map_teachers_aux code_map cs
    match code_map.lookup (strUpper c) with
    | some name => (name :: rest.1, rest.2)
    | none => (c :: rest.1, c :: rest.2)

/-- The source `map_teachers`: returns (main, teacher1, unknown, extras). -/
def map_teachers (raw_teachers : Option String) (code_map : List (String × String)) :
    String × String × List String × List String :=
  let codes := split_teacher_codes raw_teachers
  let mu := map_teachers_aux code_map codes
  (mu.1.headD "", (mu.1.drop 1).headD "", mu.2, mu.1.drop 2)

/-- `Series.astype(str)` on a possibly-missing cell: pandas renders a
missing value (NaN) as the string "nan". -/
def astypeStr : Option String → String
  | none => "nan"
  | some s => s

/-- `drop_duplicates(subset = Code, keep = first)` on (Code, User name)
pairs. -/
def dedupKeysAux (seen : List String) : List (String × String) → List (String × String)
  | [] => []
  | kv :: t =>
    if kv.1 ∈ seen then dedupKeysAux seen t else kv :: dedupKeysAux (kv.1 :: seen) t

/-- The source `build_code_to_username_map`: astype(str) both columns,
normalise, upper-case the code, then deduplicate by code keeping the
first occurrence.  The `dropna` call of the source runs after
`astype(str)` has already turned every missing value into the string
"nan", so it can never drop a row; it is therefore the identity and is
not represented by a separate step here. -/
def build_code_to_username_map (rows : List (Option String × Option String)) :
    List (String × String) :=
  dedupKeysAux [] (rows.map (fun p => (strUpper (norm (astypeStr p.1)), norm (astypeStr p.2))))

/- ---------------------------------------------------------------
   Cohort decoder, pattern mode: the regex
   B L digits ws+ ([A-Z&]{2,}) ws* - ws* [A-Z]*? (digits) B
   searched case-insensitively in every plus-separated segment
   --------------------------------------------------------------- -/

/-- Require a nonempty digit run and return what follows (the regex
piece `digits-plus`). -/
def reqDigits (cs : List Char) : Option (List Char) :=
  if (cs.takeWhile Char.isDigit).isEmpty then none else some (cs.dropWhile Char.isDigit)

/-- Require a nonempty whitespace run and return what follows (the
regex piece `whitespace-plus`). -/
def reqWs (cs : List Char) : Option (List Char) :=
  if (cs.takeWhile Char.isWhitespace).isEmpty then none else some (cs.dropWhile Char.isWhitespace)

/-- The trailing word-boundary test of the pattern: the match succeeds
only when the character after the captured digits (if any) is not a
word character. -/
def boundaryCheck (r8 : List Char) (v : List Char × Nat) : Option (List Char × Nat) :=
  match r8 with
  | [] => some v
  | e :: _ => if isWordChar e then none else some v

/-- The lazily matched letter run followed by the captured digit run of
the pattern (the letter run is consumed up to the first non-letter,
which must start a digit run), then the word-boundary test. -/
def tailNum (r7 : List Char) (pg : List Char) : Option (List Char × Nat) :=
  if (r7.takeWhile Char.isDigit).isEmpty then none
  else boundaryCheck (r7.dropWhile Char.isDigit) (pg, natOfDigits (r7.takeWhile Char.isDigit))

/-- The dash of the pattern with its optional surrounding whitespace
already consumed on the left: require a dash, skip whitespace, skip the
lazy letter run, and hand over to the digit capture. -/
def afterDash (r4 : List Char) (pg : List Char) : Option (List Char × Nat) :=
  match r4 with
  | [] => none
  | d :: r5 =>
    if d == '-' then tailNum ((r5.dropWhile Char.isWhitespace).dropWhile Char.isAlpha) pg
    else none

/-- Match the part of the pattern after the leading letter L: a digit
run, whitespace, a program name of at least two letters-or-ampersands,
optional whitespace, a dash, optional whitespace, a lazily matched
letter run, a digit run, and a word boundary.  Returns the captured
program characters and the captured group number. -/
def matchRest (cs : List Char) : Option (List Char × Nat) :=
  (reqDigits cs).bind fun r1 =>
    (reqWs r1).bind fun r2 =>
      if (r2.takeWhile isProgChar).length < 2 then none
      else
        afterDash ((r2.dropWhile isProgChar).dropWhile Char.isWhitespace)
          (r2.takeWhile isProgChar)

/-- `re.search` of the coded-group pattern: scan left to right for a
word-boundary position holding the letter L (either case) whose
continuation matches `matchRest`; the flag records whether the previous
character was a word character (the `\b` test). -/
def searchPat : List Char → Bool → Option (List Char × Nat)
  | [], _ => none
  | c :: cs, prevWord =>
    if !prevWord && (c == 'L' || c == 'l') then
      match matchRest cs with
      | some pr => some pr
      | none => searchPat cs (isWordChar c)
    else searchPat cs (isWordChar c)

/-- `out.setdefault(prog, []).append(num)`: append the number to the
entry of the program, creating the entry at the end on first sight. -/
def addGroup (m : List (String × List Nat)) (p : String) (n : Nat) : List (String × List Nat) :=
  match m with
  | [] => [(p, [n])]
  | (q, l) :: t => if q = p then (q, l ++ [n]) :: t else (q, l) :: addGroup t p n

/-- One step of the accumulation loop of `extract_groups_from_codes`:
search one segment and, on a match, record the group number under the
upper-cased program. -/
def extractStep (acc : List (String × List Nat)) (part : List Char) : List (String × List Nat) :=
  match searchPat part false with
  | some pr => addGroup acc (String.mk (pr.1.map upChar)) pr.2
  | none => acc

/-- Body of `extract_groups_from_codes` over raw characters. -/
def extractCore (cs : List Char) : List (String × List Nat) :=
  let s := normData cs
  if s = [] then []
  else
    (((splitOnChar '+' s).map stripChars).foldl extractStep []).map
      (fun pr => (pr.1, sortLe natLeB (uniqueFirst pr.2)))

/-- The source `extract_groups_from_codes`: normalise, split on plus
signs, strip each segment, regex-search each segment, accumulate group
numbers per upper-cased program, then per program sort the
de-duplicated numbers ascending (`sorted(set(...))`). -/
def extract_groups_from_codes (students_sets : String) : List (String × List Nat) :=
  extractCore students_sets.data

/-- Look up the number list of a program in the accumulated groups. -/
def lookupGroups (m : List (String × List Nat)) (p : String) : List Nat :=
  match m.find? (fun pr => pr.1 == p) with
  | some pr => pr.2
  | none => []

/-- `",".join(str(n) for n in groups[prog])`. -/
def nums_str (l : List Nat) : String := joinSep "," (l.map (fun n => toString n))

/-- The program ordering of the source: SE first, then CS, then the
remaining programs sorted; built exactly as the two source loops do. -/
def progOrder (keys : List String) : List String :=
  let pre := (["SE", "CS"]).filter (fun p => keys.contains p)
  pre ++ (sortLe strLeB keys).filter (fun p => !(pre.contains p))

/-- The source `build_group_name_from_codes`: render the decoded groups,
with the intake label only on the first program segment. -/
def build_group_name_from_codes (students_sets intake_label : String) : String :=
  let groups := extract_groups_from_codes students_sets
  match groups with
  | [] => ""
  | _ =>
    let order := progOrder (uniqueFirst (groups.map (fun pr => pr.1)))
    match order with
    | [] => ""
    | [p] => intake_label ++ " " ++ p ++ "- " ++ nums_str (lookupGroups groups p)
    | p0 :: rest =>
      joinSep " / "
        ((intake_label ++ " " ++ p0 ++ "- " ++ nums_str (lookupGroups groups p0)) ::
          rest.map (fun p => p ++ "- " ++ nums_str (lookupGroups groups p)))

/- ---------------------------------------------------------------
   Cohort decoder, mapping-table mode, intake override, final label
   --------------------------------------------------------------- -/

/-- One row of the group-mapping table after `load_group_map`
normalisation (Program already upper-cased). -/
structure GroupMapRow where
  studentsSets : String
  level : String
  intake : String
  program : String
  groups : String
deriving DecidableEq

/-- The source `group_name_from_map`: select the rows whose Students
Sets text equals the (already normalised) input, order the programs SE,
CS, then the rest sorted, and render, with Level and Intake only on the
first segment. -/
def group_name_from_map (s : String) (gm : List GroupMapRow) : String :=
  let sub := gm.filter (fun r => r.studentsSets == s)
  match sub with
  | [] => ""
  | r0 :: _ =>
    let seg := fun (p : String) =>
      match sub.find? (fun r => r.program == p) with
      | some r => r.groups
      | none => ""
    let pre := (["SE", "CS"]).filter (fun p => sub.any (fun r => r.program == p))
    let order := pre ++
      (sortLe strLeB (uniqueFirst (sub.map (fun r => r.program)))).filter
        (fun p => !(pre.contains p))
    match order with
    | [] => ""
    | [p] => r0.level ++ " " ++ r0.intake ++ " " ++ p ++ "- " ++ seg p
    | p0 :: rest =>
      joinSep " / "
        ((r0.level ++ " " ++ r0.intake ++ " " ++ p0 ++ "- " ++ seg p0) ::
          rest.map (fun p => p ++ "- " ++ seg p))

/-- Match the anchored pattern `L digits ws+ letters ws+ digits ws+` at
the start of the text and return the remainder, the matcher behind the
intake-label override `re.sub`. -/
def dropIntakeStart (cs : List Char) : Option (List Char) :=
  match cs with
  | [] => none
  | c :: rest =>
    if c == 'L' then
      match reqDigits rest with
      | none => none
      | some r1 =>
        match reqWs r1 with
        | none => none
        | some r2 =>
          if (r2.takeWhile Char.isAlpha).isEmpty then none
          else
            match reqWs (r2.dropWhile Char.isAlpha) with
            | none => none
            | some r4 =>
              match reqDigits r4 with
              | none => none
              | some r5 =>
                match reqWs r5 with
                | none => none
                | some r6 => some r6
    else none

/-- The source `override_intake_prefix` (renamed here): replace a
leading `L<digits> <word> <digits>` intake marker of an already
rendered label with the caller-supplied intake label. -/
def override_intake_label (section_text intake_label : String) : String :=
  let s := norm section_text
  if s = "" then s
  else
    match dropIntakeStart s.data with
    | some rest => intake_label ++ " " ++ String.mk rest
    | none => s

/-- The source `final_group_name` closure: mapping table first
(optionally overriding the intake), then pattern decoding, then the
fallback `f"{intake_label} {s}".strip()`. -/
def final_group_name (group_map : Option (List GroupMapRow)) (force_intake_override : Bool)
    (intake_label : String) (students_sets : String) : String :=
  let s := norm students_sets
  let viaMap : Option String :=
    match group_map with
    | some gm =>
      let mapped := group_name_from_map s gm
      if mapped != "" then
        some (if force_intake_override then override_intake_label mapped intake_label else mapped)
      else none
    | none => none
  match viaMap with
  | some r => r
  | none =>
    let parsed := build_group_name_from_codes s intake_label
    if parsed != "" then parsed else pyStrip (intake_label ++ " " ++ s)

/- ---------------------------------------------------------------
   Course variant inference
   --------------------------------------------------------------- -/

/-- The source `infer_course_variant`: upper-case the normalised tags
and test the three substrings in order. -/
def infer_course_variant (activity_tags : String) : String :=
  let s := strUpper (norm activity_tags)
  if hasSub s.data "LAB".data then "Lab"
  else if hasSub s.data "TUT".data then "Tutorial"
  else if hasSub s.data "LEC".data then "Lecture"
  else ""

/- ---------------------------------------------------------------
   Session aggregation
   --------------------------------------------------------------- -/

/-- Value of a one- or two-digit field of `strptime`. -/
def twoDigitVal : List Char → Option Nat
  | [d] => if d.isDigit then some (d.toNat - 48) else none
  | [d1, d2] => if d1.isDigit && d2.isDigit then some ((d1.toNat - 48) * 10 + (d2.toNat - 48)) else none
  | _ => none

/-- The source `parse_time_hhmm` (`datetime.strptime` with the
hour-colon-minute format after `strip`): the whole text must be a one-
or two-digit hour at most 23, a colon, and a one- or two-digit minute
at most 59.  Returns minutes of day; `none` models the raised
ValueError. -/
def parse_time_hhmm (t : String) : Option Nat :=
  match splitOnChar ':' (stripChars t.data) with
  | [hPart, mPart] =>
    match twoDigitVal hPart, twoDigitVal mPart with
    | some hv, some mv => if hv ≤ 23 && mv ≤ 59 then some (hv * 60 + mv) else none
    | _, _ => none
  | _ => none

def pad2 (n : Nat) : String := if n < 10 then "0" ++ toString n else toString n

/-- The source `fmt_time_hhmmss` (`strftime` of hour, minute, second)
on a minutes-of-day value; an end bound one hour past 23:xx wraps to
the next day exactly as `datetime` arithmetic does. -/
def fmt_time_hhmmss (m : Nat) : String :=
  pad2 (m / 60 % 24) ++ ":" ++ pad2 (m % 60) ++ ":00"

/-- One enriched timetable row, restricted to the columns session
aggregation reads (the Comments column is carried along by the source
but never read by the CBS builders). -/
structure ErpRow where
  activityId : String
  day : String
  hour : String
  studentsSets : String
  groupName : String
  subject : String
  teachers : String
  teacher1 : String
  activityTags : String
  room : String
deriving DecidableEq

/-- `df["Hour"] = df["Hour"].map(norm)`. -/
def normHour (r : ErpRow) : ErpRow := { r with hour := norm r.hour }

/-- The groupby key of `build_sessions_for_cbs`, in source column order. -/
def sessionKey (r : ErpRow) : List String :=
  [r.activityId, r.day, r.studentsSets, r.groupName, r.subject,
   r.room, r.teachers, r.teacher1, r.activityTags]

/-- `g["Hour"].dropna().unique()` filtered to nonempty values (the
`if x` guard); `dropna` is a no-op because the Hour column was just
normalised to strings. -/
def groupHours (g : List ErpRow) : List String :=
  (uniqueFirst (g.map (fun r => r.hour))).filter (fun h => h != "")

/-- Parse every hour text of a group; `none` models the ValueError the
first unparsable value raises inside the list comprehension. -/
def parseAll : List String → Option (List Nat)
  | [] => some []
  | h :: t =>
    match parse_time_hhmm h, parseAll t with
    | some v, some vs => some (v :: vs)
    | _, _ => none

/-- One output session row: the first row of the group plus the two
span columns added by the source. -/
structure SessionRow where
  row : ErpRow
  fromTimeSlot : String
  toTimeSlot : String
deriving DecidableEq

/-- Process one groupby group: parse the distinct nonempty hours (a
failure aborts the whole build), skip the group if none remain,
otherwise take the first row and attach the span
(first sorted hour, last sorted hour plus one hour). -/
def processGroup (g : List ErpRow) : Except Unit (Option SessionRow) :=
  match parseAll (groupHours g) with
  | none => Except.error ()
  | some hs =>
    match sortLe natLeB hs, g with
    | h0 :: t, r0 :: _ =>
      Except.ok (some { row := r0, fromTimeSlot := fmt_time_hhmmss h0,
                        toTimeSlot := fmt_time_hhmmss (lastOf h0 t + 60) })
    | _, _ => Except.ok none

/-- Iterate the groups (one per distinct key) and collect the produced
sessions; any group whose hours fail to parse aborts everything, which
is the uncaught-exception behaviour of the source. -/
def processGroups (rows : List ErpRow) : List (List String) → Except Unit (List SessionRow)
  | [] => Except.ok []
  | k :: ks =>
    match processGroup (rows.filter (fun r => sessionKey r == k)) with
    | Except.error e => Except.error e
    | Except.ok none => processGroups rows ks
    | Except.ok (some s) =>
      match processGroups rows ks with
      | Except.error e => Except.error e
      | Except.ok rest => Except.ok (s :: rest)

/-- The source `build_sessions_for_cbs`: normalise the Hour column,
group by the session key and fold each group into one session row. -/
def build_sessions_for_cbs (rows : List ErpRow) : Except Unit (List SessionRow) :=
  let dfr := rows.map normHour
  processGroups dfr (uniqueFirst (dfr.map sessionKey))

/- ---------------------------------------------------------------
   CBS output rows (EntrySheet and the CBS2 secondary-teacher set)
   --------------------------------------------------------------- -/

/-- One record of the CBS template shape. -/
structure CbsRec where
  calId : String
  course : String
  courseVariant : String
  sectionName : String
  room : String
  faculty : String
  day : String
  fromTimeSlot : String
  toTimeSlot : String
  academyLocationId : String
  isAllFaculties : String
deriving DecidableEq

/-- The `base` record built for a session in the CBS output loop. -/
def cbs_base_record (default_is_all_faculties : String) (s : SessionRow) : CbsRec :=
  { calId := ""
    course := norm s.row.subject
    courseVariant := infer_course_variant s.row.activityTags
    sectionName := norm s.row.groupName
    room := norm s.row.room
    faculty := norm s.row.teachers
    day := norm s.row.day
    fromTimeSlot := s.fromTimeSlot
    toTimeSlot := s.toTimeSlot
    academyLocationId := ""
    isAllFaculties := default_is_all_faculties }

/-- The CBS output loop: every session appends `base` to the main
(EntrySheet) list, and, when the normalised secondary teacher name is
nonempty, also appends `base` with Faculty replaced to the CBS2 list. -/
def cbs_output_rows (default_is_all_faculties : String) :
    List SessionRow → List CbsRec × List CbsRec
  | [] => ([], [])
  | s :: rest =>
    let base := cbs_base_record default_is_all_faculties s
    let tail := cbs_output_rows default_is_all_faculties rest
    let t1 := norm s.row.teacher1
    if t1 != "" then (base :: tail.1, { base with faculty := t1 } :: tail.2)
    else (base :: tail.1, tail.2)

/- ---------------------------------------------------------------
   Concrete rows used by the concrete parts of the claims
   --------------------------------------------------------------- -/

/-- A sample enriched row with a given Hour value. -/
def exRow (h : String) : ErpRow :=
  { activityId := "1", day := "Mon", hour := h, studentsSets := "L5 CS -G1",
    groupName := "L5 Jan 26 CS- 1", subject := "Algebra", teachers := "Alice Lee",
    teacher1 := "Sam Kim", activityTags := "LEC", room := "R1" }

/-- A sample row belonging to a different session (different key). -/
def exRowOther (h : String) : ErpRow :=
  { activityId := "2", day := "Tue", hour := h, studentsSets := "L5 SE -G10",
    groupName := "L5 Jan 26 SE- 10", subject := "Logic", teachers := "Alice Lee",
    teacher1 := "", activityTags := "TUT", room := "R2" }

/- ---------------------------------------------------------------
   Helper lemmas: first-occurrence deduplication
   --------------------------------------------------------------- -/

theorem mem_uniqueFirstAux {α : Type} [DecidableEq α] (l : List α) (seen : List α) (x : α) :
    x ∈ uniqueFirstAux seen l ↔ x ∈ l ∧ x ∉ seen := by
  induction l generalizing seen with
  | nil => simp [uniqueFirstAux]
  | cons a t ih =>
    unfold uniqueFirstAux
    by_cases ha : a ∈ seen
    · rw [if_pos ha, ih]
      simp only [List.mem_cons]
      constructor
      · rintro ⟨h1, h2⟩; exact ⟨Or.inr h1, h2⟩
      · rintro ⟨h1 | h1, h2⟩
        · subst h1; exact absurd ha h2
        · exact ⟨h1, h2⟩
    · rw [if_neg ha]
      simp only [List.mem_cons, ih, List.mem_cons]
      constructor
      · rintro (rfl | ⟨h1, h2⟩)
        · exact ⟨Or.inl rfl, ha⟩
        · constructor
          · exact Or.inr h1
          · intro hs; exact h2 (Or.inr hs)
      · rintro ⟨rfl | h1, h2⟩
        · exact Or.inl rfl
        · by_cases hxa : x = a
          · exact Or.inl hxa
          · refine Or.inr ⟨h1, ?_⟩
            rintro (rfl | hh)
            · exact hxa rfl
            · exact h2 hh

theorem mem_uniqueFirst {α : Type} [DecidableEq α] (l : List α) (x : α) :
    x ∈ uniqueFirst l ↔ x ∈ l := by
  simp [uniqueFirst, mem_uniqueFirstAux]

theorem uniqueFirstAux_eq_nil {α : Type} [DecidableEq α] (l : List α) (seen : List α)
    (h : ∀ x ∈ l, x ∈ seen) : uniqueFirstAux seen l = [] := by
  induction l with
  | nil => rfl
  | cons a t ih =>
    rw [uniqueFirstAux, if_pos (h a (List.mem_cons_self a t))]
    exact ih fun x hx => h x (List.mem_cons_of_mem a hx)

theorem uniqueFirst_all_eq {α : Type} [DecidableEq α] (a : α) (t : List α)
    (h : ∀ x ∈ a :: t, x = a) : uniqueFirst (a :: t) = [a] := by
  rw [uniqueFirst, uniqueFirstAux, if_neg (List.not_mem_nil a)]
  rw [uniqueFirstAux_eq_nil]
  intro x hx
  rw [h x (List.mem_cons_of_mem a hx)]
  exact List.mem_cons_self a []

theorem nodup_uniqueFirstAux {α : Type} [DecidableEq α] (l : List α) (seen : List α) :
    (uniqueFirstAux seen l).Nodup := by
  induction l generalizing seen with
  | nil => simp [uniqueFirstAux]
  | cons a t ih =>
    unfold uniqueFirstAux
    by_cases ha : a ∈ seen
    · rw [if_pos ha]; exact ih seen
    · rw [if_neg ha]
      refine List.Nodup.cons ?_ (ih (a :: seen))
      intro hmem
      exact ((mem_uniqueFirstAux t (a :: seen) a).1 hmem).2 (List.mem_cons_self a seen)

theorem nodup_uniqueFirst {α : Type} [DecidableEq α] (l : List α) : (uniqueFirst l).Nodup :=
  nodup_uniqueFirstAux l []

/- ---------------------------------------------------------------
   Helper lemmas: the insertion sort
   --------------------------------------------------------------- -/

theorem insLe_perm {α : Type} (le : α → α → Bool) (a : α) (l : List α) :
    (insLe le a l).Perm (a :: l) := by
  induction l with
  | nil => simp [insLe]
  | cons b t ih =>
    unfold insLe
    split
    · exact List.Perm.refl _
    · exact (ih.cons b).trans (List.Perm.swap a b t)

theorem sortLe_perm {α : Type} (le : α → α → Bool) (l : List α) : (sortLe le l).Perm l := by
  induction l with
  | nil => exact List.Perm.refl _
  | cons a t ih => exact (insLe_perm le a (sortLe le t)).trans (ih.cons a)

theorem pairwise_insLe_nat (a : Nat) (l : List Nat) (h : l.Pairwise (· ≤ ·)) :
    (insLe natLeB a l).Pairwise (· ≤ ·) := by
  induction l with
  | nil => simp [insLe]
  | cons b t ih =>
    unfold insLe
    split
    · rename_i hle
      have hab : a ≤ b := by simpa [natLeB] using hle
      refine List.Pairwise.cons ?_ h
      intro x hx
      rcases List.mem_cons.1 hx with rfl | hx
      · exact hab
      · exact le_trans hab (List.rel_of_pairwise_cons h hx)
    · rename_i hle
      have hba : b ≤ a := by
        have hnab : ¬ a ≤ b := by simpa [natLeB] using hle
        omega
      have ht : t.Pairwise (· ≤ ·) := h.of_cons
      refine List.Pairwise.cons ?_ (ih ht)
      intro x hx
      have hx' : x ∈ a :: t := (insLe_perm natLeB a t).mem_iff.1 hx
      rcases List.mem_cons.1 hx' with rfl | hx'
      · exact hba
      · exact List.rel_of_pairwise_cons h hx'

theorem pairwise_sortLe_nat (l : List Nat) : (sortLe natLeB l).Pairwise (· ≤ ·) := by
  induction l with
  | nil => simp [sortLe]
  | cons a t ih => exact pairwise_insLe_nat a (sortLe natLeB t) ih

/- ---------------------------------------------------------------
   Helper lemmas: hour parsing, last element, join
   --------------------------------------------------------------- -/

theorem parseAll_eq_none_of_mem (l : List String) (x : String) (hx : x ∈ l)
    (hp : parse_time_hhmm x = none) : parseAll l = none := by
  induction l with
  | nil => cases hx
  | cons a t ih =>
    rcases List.mem_cons.1 hx with rfl | hx
    · cases h2 : parseAll t <;> simp [parseAll, hp, h2]
    · cases h1 : parse_time_hhmm a <;> simp [parseAll, h1, ih hx]

theorem lastOf_mem (a : Nat) (l : List Nat) : lastOf a l ∈ a :: l := by
  induction l generalizing a with
  | nil => simp [lastOf]
  | cons b t ih =>
    rw [lastOf]
    exact List.mem_cons_of_mem a (ih b)

theorem le_lastOf_of_pairwise (l : List Nat) (a : Nat) (h : (a :: l).Pairwise (· ≤ ·)) :
    ∀ b ∈ a :: l, b ≤ lastOf a l := by
  induction l generalizing a with
  | nil =>
    intro b hb
    rcases List.mem_cons.1 hb with rfl | hb
    · simp [lastOf]
    · cases hb
  | cons c t ih =>
    intro b hb
    rw [lastOf]
    rcases List.mem_cons.1 hb with rfl | hb
    · exact List.rel_of_pairwise_cons h (lastOf_mem c t)
    · exact ih c h.of_cons b hb

theorem le_length_joinSep (sep : String) (a : String) (t : List String) :
    a.length ≤ (joinSep sep (a :: t)).length := by
  cases t with
  | nil => simp [joinSep]
  | cons b t =>
    rw [joinSep, String.length_append, String.length_append]
    omega

theorem str_ne_empty_of_length_pos {s : String} (h : 0 < s.length) : s ≠ "" := by
  intro he
  rw [he] at h
  exact absurd h (by decide)

/- ---------------------------------------------------------------
   Helper lemmas: substring test
   --------------------------------------------------------------- -/

theorem isPre_iff (n h : List Char) : isPre n h = true ↔ n <+: h := by
  induction n generalizing h with
  | nil => simp [isPre]
  | cons a as ih =>
    cases h with
    | nil => simp [isPre]
    | cons b bs =>
      rw [isPre, Bool.and_eq_true, beq_iff_eq, ih]
      exact (List.cons_prefix_cons).symm

theorem hasSub_iff (h n : List Char) : hasSub h n = true ↔ n <:+: h := by
  induction h with
  | nil =>
    rw [hasSub, isPre_iff, List.infix_nil, List.prefix_nil]
  | cons c t ih =>
    rw [hasSub, Bool.or_eq_true, isPre_iff, ih]
    exact (List.infix_cons_iff).symm

/- ---------------------------------------------------------------
   Helper lemmas: the ASCII case map
   --------------------------------------------------------------- -/

def lowerChars : List Char :=
  ['a', 'b', 'c', 'd', 'e', 'f', 'g', 'h', 'i', 'j', 'k', 'l', 'm', 'n', 'o', 'p', 'q', 'r', 's', 't', 'u', 'v', 'w', 'x', 'y', 'z']

def upperChars : List Char :=
  ['A', 'B', 'C', 'D', 'E', 'F', 'G', 'H', 'I', 'J', 'K', 'L', 'M', 'N', 'O', 'P', 'Q', 'R', 'S', 'T', 'U', 'V', 'W', 'X', 'Y', 'Z']

/-- Enumeration lemma for the ASCII case map: a character is either
fixed by it or is the i-th lower-case letter, sent to the i-th
upper-case letter. -/
theorem upChar_enum (c : Char) :
    upChar c = c ∨
      ∃ i : Fin 26, c = lowerChars.getD i.val 'a' ∧ upChar c = upperChars.getD i.val 'A' := by
  by_cases h1 : c = 'a'
  · exact Or.inr ⟨⟨0, by decide⟩, by rw [h1]; decide, by rw [h1]; decide⟩
  by_cases h2 : c = 'b'
  · exact Or.inr ⟨⟨1, by decide⟩, by rw [h2]; decide, by rw [h2]; decide⟩
  by_cases h3 : c = 'c'
  · exact Or.inr ⟨⟨2, by decide⟩, by rw [h3]; decide, by rw [h3]; decide⟩
  by_cases h4 : c = 'd'
  · exact Or.inr ⟨⟨3, by decide⟩, by rw [h4]; decide, by rw [h4]; decide⟩
  by_cases h5 : c = 'e'
  · exact Or.inr ⟨⟨4, by decide⟩, by rw [h5]; decide, by rw [h5]; decide⟩
  by_cases h6 : c = 'f'
  · exact Or.inr ⟨⟨5, by decide⟩, by rw [h6]; decide, by rw [h6]; decide⟩
  by_cases h7 : c = 'g'
  · exact Or.inr ⟨⟨6, by decide⟩, by rw [h7]; decide, by rw [h7]; decide⟩
  by_cases h8 : c = 'h'
  · exact Or.inr ⟨⟨7, by decide⟩, by rw [h8]; decide, by rw [h8]; decide⟩
  by_cases h9 : c = 'i'
  · exact Or.inr ⟨⟨8, by decide⟩, by rw [h9]; decide, by rw [h9]; decide⟩
  by_cases h10 : c = 'j'
  · exact Or.inr ⟨⟨9, by decide⟩, by rw [h10]; decide, by rw [h10]; decide⟩
  by_cases h11 : c = 'k'
  · exact Or.inr ⟨⟨10, by decide⟩, by rw [h11]; decide, by rw [h11]; decide⟩
  by_cases h12 : c = 'l'
  · exact Or.inr ⟨⟨11, by decide⟩, by rw [h12]; decide, by rw [h12]; decide⟩
  by_cases h13 : c = 'm'
  · exact Or.inr ⟨⟨12, by decide⟩, by rw [h13]; decide, by rw [h13]; decide⟩
  by_cases h14 : c = 'n'
  · exact Or.inr ⟨⟨13, by decide⟩, by rw [h14]; decide, by rw [h14]; decide⟩
  by_cases h15 : c = 'o'
  · exact Or.inr ⟨⟨14, by decide⟩, by rw [h15]; decide, by rw [h15]; decide⟩
  by_cases h16 : c = 'p'
  · exact Or.inr ⟨⟨15, by decide⟩, by rw [h16]; decide, by rw [h16]; decide⟩
  by_cases h17 : c = 'q'
  · exact Or.inr ⟨⟨16, by decide⟩, by rw [h17]; decide, by rw [h17]; decide⟩
  by_cases h18 : c = 'r'
  · exact Or.inr ⟨⟨17, by decide⟩, by rw [h18]; decide, by rw [h18]; decide⟩
  by_cases h19 : c = 's'
  · exact Or.inr ⟨⟨18, by decide⟩, by rw [h19]; decide, by rw [h19]; decide⟩
  by_cases h20 : c = 't'
  · exact Or.inr ⟨⟨19, by decide⟩, by rw [h20]; decide, by rw [h20]; decide⟩
  by_cases h21 : c = 'u'
  · exact Or.inr ⟨⟨20, by decide⟩, by rw [h21]; decide, by rw [h21]; decide⟩
  by_cases h22 : c = 'v'
  · exact Or.inr ⟨⟨21, by decide⟩, by rw [h22]; decide, by rw [h22]; decide⟩
  by_cases h23 : c = 'w'
  · exact Or.inr ⟨⟨22, by decide⟩, by rw [h23]; decide, by rw [h23]; decide⟩
  by_cases h24 : c = 'x'
  · exact Or.inr ⟨⟨23, by decide⟩, by rw [h24]; decide, by rw [h24]; decide⟩
  by_cases h25 : c = 'y'
  · exact Or.inr ⟨⟨24, by decide⟩, by rw [h25]; decide, by rw [h25]; decide⟩
  by_cases h26 : c = 'z'
  · exact Or.inr ⟨⟨25, by decide⟩, by rw [h26]; decide, by rw [h26]; decide⟩
  refine Or.inl ?_
  unfold upChar
  rw [if_neg h1, if_neg h2, if_neg h3, if_neg h4, if_neg h5, if_neg h6, if_neg h7, if_neg h8, if_neg h9, if_neg h10, if_neg h11, if_neg h12, if_neg h13, if_neg h14, if_neg h15, if_neg h16, if_neg h17, if_neg h18, if_neg h19, if_neg h20, if_neg h21, if_neg h22, if_neg h23, if_neg h24, if_neg h25, if_neg h26]

theorem upChar_isWs (c : Char) : (upChar c).isWhitespace = c.isWhitespace := by
  rcases upChar_enum c with h | ⟨i, hc, hu⟩
  · rw [h]
  · rw [hu, hc]
    clear hc hu
    revert i
    decide

theorem upChar_isDigit (c : Char) : (upChar c).isDigit = c.isDigit := by
  rcases upChar_enum c with h | ⟨i, hc, hu⟩
  · rw [h]
  · rw [hu, hc]
    clear hc hu
    revert i
    decide

theorem upChar_isAlpha (c : Char) : (upChar c).isAlpha = c.isAlpha := by
  rcases upChar_enum c with h | ⟨i, hc, hu⟩
  · rw [h]
  · rw [hu, hc]
    clear hc hu
    revert i
    decide

theorem upChar_beq_amp (c : Char) : (upChar c == '&') = (c == '&') := by
  rcases upChar_enum c with h | ⟨i, hc, hu⟩
  · rw [h]
  · rw [hu, hc]
    clear hc hu
    revert i
    decide

theorem upChar_beq_plus (c : Char) : (upChar c == '+') = (c == '+') := by
  rcases upChar_enum c with h | ⟨i, hc, hu⟩
  · rw [h]
  · rw [hu, hc]
    clear hc hu
    revert i
    decide

theorem upChar_beq_dash (c : Char) : (upChar c == '-') = (c == '-') := by
  rcases upChar_enum c with h | ⟨i, hc, hu⟩
  · rw [h]
  · rw [hu, hc]
    clear hc hu
    revert i
    decide

theorem upChar_beq_underscore (c : Char) : (upChar c == '_') = (c == '_') := by
  rcases upChar_enum c with h | ⟨i, hc, hu⟩
  · rw [h]
  · rw [hu, hc]
    clear hc hu
    revert i
    decide

theorem upChar_beqL (c : Char) : ((upChar c == 'L') || (upChar c == 'l')) = ((c == 'L') || (c == 'l')) := by
  rcases upChar_enum c with h | ⟨i, hc, hu⟩
  · rw [h]
  · rw [hu, hc]
    clear hc hu
    revert i
    decide

theorem upChar_digit_fix (c : Char) (hd : c.isDigit = true) : upChar c = c := by
  rcases upChar_enum c with h | ⟨i, hc, hu⟩
  · exact h
  · rw [hu, hc]
    rw [hc] at hd
    clear hc hu
    revert i
    decide

theorem upChar_upChar (c : Char) : upChar (upChar c) = upChar c := by
  rcases upChar_enum c with h | ⟨i, hc, hu⟩
  · rw [h]
    exact h
  · rw [hu]
    clear hc hu
    revert i
    decide
theorem isProgChar_upChar (c : Char) : isProgChar (upChar c) = isProgChar c := by
  rw [isProgChar, isProgChar, upChar_isAlpha, upChar_beq_amp]

theorem isWordChar_upChar (c : Char) : isWordChar (upChar c) = isWordChar c := by
  rw [isWordChar, isWordChar, upChar_isAlpha, upChar_isDigit, upChar_beq_underscore]

/- ---------------------------------------------------------------
   Helper lemmas: case-invariance of the coded-group matcher
   --------------------------------------------------------------- -/

theorem takeWhile_map_upChar (p : Char → Bool) (hp : ∀ c, p (upChar c) = p c)
    (cs : List Char) : (cs.map upChar).takeWhile p = (cs.takeWhile p).map upChar := by
  have hcomp : p ∘ upChar = p := funext hp
  rw [List.takeWhile_map, hcomp]

theorem dropWhile_map_upChar (p : Char → Bool) (hp : ∀ c, p (upChar c) = p c)
    (cs : List Char) : (cs.map upChar).dropWhile p = (cs.dropWhile p).map upChar := by
  have hcomp : p ∘ upChar = p := funext hp
  rw [List.dropWhile_map, hcomp]

theorem isEmpty_map {α β : Type} (f : α → β) (l : List α) : (l.map f).isEmpty = l.isEmpty := by
  cases l <;> rfl

theorem map_upChar_digits (l : List Char) (h : ∀ c ∈ l, c.isDigit = true) :
    l.map upChar = l := by
  induction l with
  | nil => rfl
  | cons a t ih =>
    rw [List.map_cons, upChar_digit_fix a (h a (List.mem_cons_self a t)),
      ih fun c hc => h c (List.mem_cons_of_mem a hc)]

theorem reqDigits_up (cs : List Char) :
    reqDigits (cs.map upChar) = (reqDigits cs).map (List.map upChar) := by
  unfold reqDigits
  rw [takeWhile_map_upChar Char.isDigit upChar_isDigit,
    dropWhile_map_upChar Char.isDigit upChar_isDigit, isEmpty_map]
  cases hb : (cs.takeWhile Char.isDigit).isEmpty <;> simp [hb]

theorem reqWs_up (cs : List Char) :
    reqWs (cs.map upChar) = (reqWs cs).map (List.map upChar) := by
  unfold reqWs
  rw [takeWhile_map_upChar Char.isWhitespace upChar_isWs,
    dropWhile_map_upChar Char.isWhitespace upChar_isWs, isEmpty_map]
  cases hb : (cs.takeWhile Char.isWhitespace).isEmpty <;> simp [hb]

theorem boundaryCheck_up (r8 : List Char) (pg : List Char) (n : Nat) :
    boundaryCheck (r8.map upChar) (pg.map upChar, n) =
      (boundaryCheck r8 (pg, n)).map (fun pr => (pr.1.map upChar, pr.2)) := by
  cases r8 with
  | nil => rfl
  | cons e rest =>
    rw [List.map_cons, boundaryCheck, boundaryCheck, isWordChar_upChar]
    by_cases he : isWordChar e = true
    · rw [if_pos he, if_pos he]
      rfl
    · rw [if_neg he, if_neg he]
      rfl

theorem tailNum_up (r7 : List Char) (pg : List Char) :
    tailNum (r7.map upChar) (pg.map upChar) =
      (tailNum r7 pg).map (fun pr => (pr.1.map upChar, pr.2)) := by
  rw [tailNum, tailNum, takeWhile_map_upChar Char.isDigit upChar_isDigit, isEmpty_map]
  by_cases h : (r7.takeWhile Char.isDigit).isEmpty = true
  · rw [if_pos h, if_pos h]
    rfl
  · rw [if_neg h, if_neg h, dropWhile_map_upChar Char.isDigit upChar_isDigit,
      map_upChar_digits (r7.takeWhile Char.isDigit) (fun c hcm => List.mem_takeWhile_imp hcm),
      boundaryCheck_up]

theorem afterDash_up (r4 : List Char) (pg : List Char) :
    afterDash (r4.map upChar) (pg.map upChar) =
      (afterDash r4 pg).map (fun pr => (pr.1.map upChar, pr.2)) := by
  cases r4 with
  | nil => rfl
  | cons d r5 =>
    rw [List.map_cons, afterDash, afterDash, upChar_beq_dash]
    by_cases hd : (d == '-') = true
    · rw [if_pos hd, if_pos hd, dropWhile_map_upChar Char.isWhitespace upChar_isWs,
        dropWhile_map_upChar Char.isAlpha upChar_isAlpha, tailNum_up]
    · rw [if_neg hd, if_neg hd]
      rfl

theorem matchRest_up (cs : List Char) :
    matchRest (cs.map upChar) = (matchRest cs).map (fun pr => (pr.1.map upChar, pr.2)) := by
  rw [matchRest, matchRest, reqDigits_up]
  cases h1 : reqDigits cs with
  | none => rfl
  | some r1 =>
    rw [Option.map_some', Option.some_bind, Option.some_bind, reqWs_up]
    cases h2 : reqWs r1 with
    | none => rfl
    | some r2 =>
      rw [Option.map_some', Option.some_bind, Option.some_bind,
        takeWhile_map_upChar isProgChar isProgChar_upChar, List.length_map]
      by_cases hlen : (r2.takeWhile isProgChar).length < 2
      · rw [if_pos hlen, if_pos hlen]
        rfl
      · rw [if_neg hlen, if_neg hlen,
          dropWhile_map_upChar isProgChar isProgChar_upChar,
          dropWhile_map_upChar Char.isWhitespace upChar_isWs, afterDash_up]

theorem searchPat_up (cs : List Char) (b : Bool) :
    searchPat (cs.map upChar) b = (searchPat cs b).map (fun pr => (pr.1.map upChar, pr.2)) := by
  induction cs generalizing b with
  | nil => rfl
  | cons c t ih =>
    rw [List.map_cons, searchPat, searchPat, upChar_beqL]
    by_cases hcond : (!b && ((c == 'L') || (c == 'l'))) = true
    · rw [if_pos hcond, if_pos hcond]
      rw [matchRest_up]
      cases hm : matchRest t with
      | none =>
        rw [Option.map_none', isWordChar_upChar, ih]
      | some pr =>
        rw [Option.map_some']
    · rw [if_neg hcond, if_neg hcond, isWordChar_upChar, ih]

theorem collapseWsAux_up (b : Bool) (cs : List Char) :
    collapseWsAux b (cs.map upChar) = (collapseWsAux b cs).map upChar := by
  induction cs generalizing b with
  | nil => rfl
  | cons c t ih =>
    rw [List.map_cons, collapseWsAux, collapseWsAux, upChar_isWs]
    by_cases hw : c.isWhitespace = true
    · rw [if_pos hw, if_pos hw]
      cases b with
      | false =>
        rw [if_neg (by decide : ¬ (false = true)), if_neg (by decide : ¬ (false = true))]
        rw [List.map_cons, ih]
        rw [show upChar ' ' = ' ' from by decide]
      | true =>
        rw [if_pos rfl, if_pos rfl, ih]
    · rw [if_neg hw, if_neg hw, List.map_cons, ih]

theorem stripChars_up (cs : List Char) :
    stripChars (cs.map upChar) = (stripChars cs).map upChar := by
  rw [stripChars, stripChars,
    dropWhile_map_upChar Char.isWhitespace upChar_isWs,
    ← List.map_reverse,
    dropWhile_map_upChar Char.isWhitespace upChar_isWs,
    ← List.map_reverse]

theorem normData_up (cs : List Char) :
    normData (cs.map upChar) = (normData cs).map upChar := by
  rw [normData, normData, collapseWsAux_up, stripChars_up]

theorem splitPlus_up (cs : List Char) :
    splitOnChar '+' (cs.map upChar) = (splitOnChar '+' cs).map (List.map upChar) := by
  induction cs with
  | nil => rfl
  | cons c t ih =>
    rw [List.map_cons, splitOnChar, splitOnChar, upChar_beq_plus]
    by_cases hc : (c == '+') = true
    · rw [if_pos hc, if_pos hc, ih]
      rfl
    · rw [if_neg hc, if_neg hc, ih]
      cases h : splitOnChar '+' t with
      | nil => rfl
      | cons p ps => rfl

theorem extractStep_up (acc : List (String × List Nat)) (part : List Char) :
    extractStep acc (part.map upChar) = extractStep acc part := by
  rw [extractStep, extractStep, searchPat_up]
  cases h : searchPat part false with
  | none => rfl
  | some pr =>
    rw [Option.map_some']
    show addGroup acc (String.mk ((pr.1.map upChar).map upChar)) pr.2 =
      addGroup acc (String.mk (pr.1.map upChar)) pr.2
    rw [List.map_map]
    have hcomp : upChar ∘ upChar = upChar := funext upChar_upChar
    rw [hcomp]

theorem foldl_extractStep_up (parts : List (List Char)) (acc : List (String × List Nat)) :
    (parts.map (List.map upChar)).foldl extractStep acc = parts.foldl extractStep acc := by
  induction parts generalizing acc with
  | nil => rfl
  | cons p t ih => rw [List.map_cons, List.foldl_cons, List.foldl_cons, extractStep_up, ih]

theorem extractCore_up (cs : List Char) : extractCore (cs.map upChar) = extractCore cs := by
  simp only [extractCore]
  rw [normData_up]
  by_cases hnil : normData cs = []
  · rw [hnil]
    simp
  · have hnil2 : ¬ (normData cs).map upChar = [] := by
      simpa using hnil
    rw [if_neg hnil, if_neg hnil2]
    rw [splitPlus_up, List.map_map]
    have hcomp : stripChars ∘ List.map upChar = List.map upChar ∘ stripChars :=
      funext fun p => stripChars_up p
    rw [hcomp, ← List.map_map, foldl_extractStep_up]

/- ---------------------------------------------------------------
   Helper lemmas: teacher resolution loop
   --------------------------------------------------------------- -/

theorem map_teachers_aux_spec (m : List (String × String)) (codes : List String) :
    map_teachers_aux m codes =
      (codes.map (fun c => (m.lookup (strUpper c)).getD c),
        codes.filter (fun c => (m.lookup (strUpper c)).isNone)) := by
  induction codes with
  | nil => rfl
  | cons c cs ih =>
    simp only [map_teachers_aux, ih]
    cases h : m.lookup (strUpper c) with
    | none => simp [h]
    | some name => simp [h]

/- ---------------------------------------------------------------
   Helper lemmas: session aggregation
   --------------------------------------------------------------- -/

theorem build_sessions_single_key (r0 : ErpRow) (rs : List ErpRow)
    (hkey : ∀ r ∈ r0 :: rs, sessionKey r = sessionKey r0) :
    build_sessions_for_cbs (r0 :: rs) =
      match processGroup ((r0 :: rs).map normHour) with
      | Except.error e => Except.error e
      | Except.ok none => Except.ok []
      | Except.ok (some s) => Except.ok [s] := by
  simp only [build_sessions_for_cbs]
  have hfun : sessionKey ∘ normHour = sessionKey := funext fun r => rfl
  have hmapkey : ((r0 :: rs).map normHour).map sessionKey = (r0 :: rs).map sessionKey := by
    rw [List.map_map, hfun]
  have hkeys : uniqueFirst ((r0 :: rs).map sessionKey) = [sessionKey r0] := by
    rw [List.map_cons]
    apply uniqueFirst_all_eq
    intro x hx
    rcases List.mem_cons.1 hx with rfl | hx
    · rfl
    · rcases List.mem_map.1 hx with ⟨r, hr, rfl⟩
      exact hkey r (List.mem_cons_of_mem _ hr)
  rw [hmapkey, hkeys]
  have hfilt : (((r0 :: rs).map normHour).filter (fun r => sessionKey r == sessionKey r0)) =
      (r0 :: rs).map normHour := by
    rw [List.filter_eq_self]
    intro a ha
    rcases List.mem_map.1 ha with ⟨r, hr, rfl⟩
    exact beq_iff_eq.mpr (hkey r hr)
  cases hpg : processGroup ((r0 :: rs).map normHour) with
  | error e => simp only [processGroups, hfilt, hpg]
  | ok o =>
    cases o with
    | none => simp only [processGroups, hfilt, hpg]
    | some s => simp only [processGroups, hfilt, hpg]

theorem processGroups_error_of_mem (rows : List ErpRow) (ks : List (List String))
    (h : ∃ k ∈ ks, processGroup (rows.filter (fun r => sessionKey r == k)) = Except.error ()) :
    processGroups rows ks = Except.error () := by
  induction ks with
  | nil =>
    rcases h with ⟨k, hk, _⟩
    cases hk
  | cons k ks ih =>
    rcases h with ⟨k1, hk1, herr⟩
    rcases List.mem_cons.1 hk1 with rfl | hk1
    · simp only [processGroups, herr]
    · simp only [processGroups]
      cases hpg : processGroup (rows.filter (fun r => sessionKey r == k)) with
      | error e =>
        cases e
        rfl
      | ok o =>
        cases o with
        | none => exact ih ⟨k1, hk1, herr⟩
        | some s => rw [ih ⟨k1, hk1, herr⟩]

theorem processGroup_error_of_badhour (g : List ErpRow) (r : ErpRow) (hr : r ∈ g)
    (hne : r.hour ≠ "") (hp : parse_time_hhmm r.hour = none) :
    processGroup g = Except.error () := by
  have hmem : r.hour ∈ groupHours g := by
    rw [groupHours]
    apply List.mem_filter.2
    constructor
    · exact (mem_uniqueFirst _ _).2 (List.mem_map.2 ⟨r, hr, rfl⟩)
    · simpa using hne
  have hnone : parseAll (groupHours g) = none := parseAll_eq_none_of_mem _ _ hmem hp
  simp [processGroup, hnone]

/- ---------------------------------------------------------------
   Helper lemmas: rendered group labels are nonempty
   --------------------------------------------------------------- -/

theorem progOrder_mem (keys : List String) (p : String) (hp : p ∈ keys) :
    p ∈ progOrder keys := by
  simp only [progOrder]
  by_cases hpre : p ∈ (["SE", "CS"]).filter (fun q => keys.contains q)
  · exact List.mem_append.2 (Or.inl hpre)
  · refine List.mem_append.2 (Or.inr (List.mem_filter.2 ⟨?_, ?_⟩))
    · exact ((sortLe_perm strLeB keys).mem_iff).2 hp
    · have hx := hpre
      simp only [List.mem_filter, List.mem_cons, List.mem_singleton, not_and, not_or] at hx
      simp only [Bool.not_eq_true']
      by_cases hse : p = "SE"
      · subst hse
        simp at hx
        simp [hx]
      · by_cases hcs : p = "CS"
        · subst hcs
          simp at hx
          simp [hx]
        · simp [hse, hcs]

theorem build_group_nonempty (s intake : String) (h : extract_groups_from_codes s ≠ []) :
    build_group_name_from_codes s intake ≠ "" := by
  cases hg : extract_groups_from_codes s with
  | nil => exact absurd hg h
  | cons g0 gt =>
    simp only [build_group_name_from_codes, hg]
    have hmem : g0.1 ∈ progOrder (uniqueFirst ((g0 :: gt).map (fun pr => pr.1))) := by
      apply progOrder_mem
      exact (mem_uniqueFirst _ _).2 (List.mem_map.2 ⟨g0, List.mem_cons_self _ _, rfl⟩)
    cases hord : progOrder (uniqueFirst ((g0 :: gt).map (fun pr => pr.1))) with
    | nil =>
      rw [hord] at hmem
      cases hmem
    | cons p rest =>
      cases rest with
      | nil =>
        apply str_ne_empty_of_length_pos
        simp only [String.length_append]
        have h2 : ("- " : String).length = 2 := by decide
        omega
      | cons p1 rest1 =>
        apply str_ne_empty_of_length_pos
        have h1 := le_length_joinSep " / "
          (intake ++ " " ++ p ++ "- " ++ nums_str (lookupGroups (g0 :: gt) p))
          ((p1 :: rest1).map (fun q => q ++ "- " ++ nums_str (lookupGroups (g0 :: gt) q)))
        have h2 : 0 < (intake ++ " " ++ p ++ "- " ++
            nums_str (lookupGroups (g0 :: gt) p)).length := by
          simp only [String.length_append]
          have h3 : ("- " : String).length = 2 := by decide
          omega
        exact lt_of_lt_of_le h2 h1

/- ---------------------------------------------------------------
   Claim theorems
   --------------------------------------------------------------- -/

/-- Claim C3: for every Teachers code string joined by plus signs and
every code map, each trimmed nonempty token is resolved through the
map (unresolved tokens kept verbatim); primary is the first entry or
empty, secondary the second or empty, overflow everything beyond the
second in input order, with no reordering or deduplication; the given
concrete map and inputs behave as stated, and empty or missing input
yields an all-empty result. -/
theorem map_teachers_resolution :
    (∀ (m : List (String × String)) (raw : Option String),
      map_teachers raw m =
        (((split_teacher_codes raw).map (fun c => (m.lookup (strUpper c)).getD c)).headD "",
          (((split_teacher_codes raw).map
            (fun c => (m.lookup (strUpper c)).getD c)).drop 1).headD "",
          (split_teacher_codes raw).filter (fun c => (m.lookup (strUpper c)).isNone),
          ((split_teacher_codes raw).map (fun c => (m.lookup (strUpper c)).getD c)).drop 2)) ∧
    map_teachers (some "BALA+SHK+XYZ") [("BALA", "Alice Lee"), ("SHK", "Sam Kim")] =
      ("Alice Lee", "Sam Kim", ["XYZ"], ["XYZ"]) ∧
    map_teachers (some "BALA+SHK") [("BALA", "Alice Lee"), ("SHK", "Sam Kim")] =
      ("Alice Lee", "Sam Kim", [], []) ∧
    map_teachers none [("BALA", "Alice Lee"), ("SHK", "Sam Kim")] = ("", "", [], []) ∧
    map_teachers (some "") [("BALA", "Alice Lee"), ("SHK", "Sam Kim")] = ("", "", [], []) := by
  refine ⟨?_, by decide, by decide, by decide, by decide⟩
  intro m raw
  simp only [map_teachers, map_teachers_aux_spec]

/-- Claim C6: the build of the lecturer code lookup does normalise both
fields (Code upper-cased) and deduplicate by Code keeping the first
occurrence, but it does not drop rows with a missing field: the
`astype(str)` conversion turns a missing value into the string "nan"
before `dropna` runs, so a row with a missing Code produces the lookup
entry "NAN" and a row with a missing User name maps to "nan". -/
theorem lec_code_map_missing_not_dropped :
    build_code_to_username_map [(none, some "Alice Lee")] = [("NAN", "Alice Lee")] ∧
    build_code_to_username_map [(some "bala", none)] = [("BALA", "nan")] ∧
    build_code_to_username_map [(some " b c ", some " Jo  Ann "), (some "B C", some "Zed")] =
      [("B C", "Jo Ann")] := by
  refine ⟨by decide, by decide, by decide⟩

/-- Claim C7: the inferred Course Variant of an Activity Tags string is
"Lab" exactly when the upper-cased normalised tags contain "LAB",
"Tutorial" exactly when they contain "TUT" but not "LAB", "Lecture"
exactly when they contain "LEC" but neither "LAB" nor "TUT", and empty
exactly when none of the three occurs: first matching rule wins, in
that order. -/
theorem infer_course_variant_rules :
    (∀ tags : String,
      (infer_course_variant tags = "Lab" ↔ "LAB".data <:+: (strUpper (norm tags)).data) ∧
      (infer_course_variant tags = "Tutorial" ↔
        ¬ "LAB".data <:+: (strUpper (norm tags)).data ∧
          "TUT".data <:+: (strUpper (norm tags)).data) ∧
      (infer_course_variant tags = "Lecture" ↔
        ¬ "LAB".data <:+: (strUpper (norm tags)).data ∧
          ¬ "TUT".data <:+: (strUpper (norm tags)).data ∧
          "LEC".data <:+: (strUpper (norm tags)).data) ∧
      (infer_course_variant tags = "" ↔
        ¬ "LAB".data <:+: (strUpper (norm tags)).data ∧
          ¬ "TUT".data <:+: (strUpper (norm tags)).data ∧
          ¬ "LEC".data <:+: (strUpper (norm tags)).data)) ∧
    infer_course_variant "lec lab" = "Lab" ∧
    infer_course_variant " Tut 2 " = "Tutorial" ∧
    infer_course_variant "Lecture" = "Lecture" ∧
    infer_course_variant "Seminar" = "" := by
  refine ⟨?_, by decide, by decide, by decide, by decide⟩
  intro tags
  have e1 := hasSub_iff (strUpper (norm tags)).data "LAB".data
  have e2 := hasSub_iff (strUpper (norm tags)).data "TUT".data
  have e3 := hasSub_iff (strUpper (norm tags)).data "LEC".data
  simp only [infer_course_variant]
  cases h1 : hasSub (strUpper (norm tags)).data "LAB".data <;>
    cases h2 : hasSub (strUpper (norm tags)).data "TUT".data <;>
      cases h3 : hasSub (strUpper (norm tags)).data "LEC".data <;>
        rw [h1] at e1 <;> rw [h2] at e2 <;> rw [h3] at e3 <;>
          simp only [Bool.false_eq_true, false_iff, true_iff, not_false_iff] at e1 e2 e3 <;>
            simp [e1, e2, e3]

/-- Claim C9: in the session-block output loop, every session record
appends its base record to the main set and, exactly when the
normalised secondary teacher name is nonempty, one additional record
identical to the base except Faculty replaced by that name is emitted
into the separate secondary-teacher set; sessions with an empty
secondary name emit nothing into that set. -/
theorem cbs2_secondary_faculty_rows (d : String) (ss : List SessionRow) :
    (cbs_output_rows d ss).1 = ss.map (cbs_base_record d) ∧
    (cbs_output_rows d ss).2 =
      (ss.filter (fun s : SessionRow => norm s.row.teacher1 != "")).map
        (fun s : SessionRow =>
          { cbs_base_record d s with faculty := norm s.row.teacher1 }) := by
  induction ss with
  | nil => exact ⟨rfl, rfl⟩
  | cons s t ih =>
    by_cases h : (norm s.row.teacher1 != "") = true
    · simp [cbs_output_rows, h, ih.1, ih.2]
    · simp [cbs_output_rows, h, ih.1, ih.2]

/-- Claim C1 counterexample: on the stated input the pattern decoder
renders the intake label only once, before the first (SE) segment, so
the result is "L5 Jan 26 SE- 10 / CS- 1,2" and not the claimed
"L5 Jan 26 SE- 10 / L5 Jan 26 CS- 1,2". -/
theorem group_label_decoding_counterexample :
    build_group_name_from_codes "L5 CS -G1+L5 CS -G2+L5 SE -G10" "L5 Jan 26" =
      "L5 Jan 26 SE- 10 / CS- 1,2" ∧
    build_group_name_from_codes "L5 CS -G1+L5 CS -G2+L5 SE -G10" "L5 Jan 26" ≠
      "L5 Jan 26 SE- 10 / L5 Jan 26 CS- 1,2" := by
  exact ⟨by decide, by decide⟩

/-- Claim C1 amended: pattern decoding accumulates group numbers per
program, deduplicates and sorts them strictly ascending, and renders
the label with SE before CS; the intake label appears only on the
first program segment, so the stated input decodes to
"L5 Jan 26 SE- 10 / CS- 1,2". -/
theorem group_label_decoding_amended :
    (∀ (s p : String) (l : List Nat),
      (p, l) ∈ extract_groups_from_codes s → l.Pairwise (· < ·)) ∧
    extract_groups_from_codes "L5 CS -G1+L5 CS -G2+L5 SE -G10" =
      [("CS", [1, 2]), ("SE", [10])] ∧
    build_group_name_from_codes "L5 CS -G1+L5 CS -G2+L5 SE -G10" "L5 Jan 26" =
      "L5 Jan 26 SE- 10 / CS- 1,2" := by
  refine ⟨?_, by decide, by decide⟩
  intro s p l hmem
  simp only [extract_groups_from_codes, extractCore] at hmem
  by_cases hnil : normData s.data = []
  · rw [if_pos hnil] at hmem
    cases hmem
  · rw [if_neg hnil] at hmem
    rcases List.mem_map.1 hmem with ⟨pr, hpr, heq⟩
    have hl : l = sortLe natLeB (uniqueFirst pr.2) := by
      have := congrArg Prod.snd heq
      exact this.symm
    subst hl
    have hle : (sortLe natLeB (uniqueFirst pr.2)).Pairwise (· ≤ ·) := pairwise_sortLe_nat _
    have hnd : (sortLe natLeB (uniqueFirst pr.2)).Nodup :=
      (sortLe_perm natLeB (uniqueFirst pr.2)).nodup_iff.mpr (nodup_uniqueFirst _)
    exact (hle.and hnd).imp fun hab => lt_of_le_of_ne hab.1 hab.2

/-- Claim C1 amended, witness at a concrete input. -/
theorem group_label_decoding_amended_witness :
    ("CS", [1, 2]) ∈ extract_groups_from_codes "L5 CS -G1+L5 CS -G2+L5 SE -G10" ∧
    List.Pairwise (· < ·) [1, 2] :=
  ⟨by decide,
    group_label_decoding_amended.1 "L5 CS -G1+L5 CS -G2+L5 SE -G10" "CS" [1, 2] (by decide)⟩

/-- Claim C10: the pattern decoder is case-insensitive: two Students
Sets strings whose characters agree after ASCII upper-casing decode to
the same groups, and the program identifier of the result is
upper-cased; in particular "l5 cs -g4" decodes to CS group 4. -/
theorem extract_groups_case_insensitive :
    (∀ s t : String, s.data.map upChar = t.data.map upChar →
      extract_groups_from_codes s = extract_groups_from_codes t) ∧
    extract_groups_from_codes "l5 cs -g4" = [("CS", [4])] ∧
    extract_groups_from_codes "l5 cs -g4" = extract_groups_from_codes "L5 CS -G4" := by
  refine ⟨?_, by decide, by decide⟩
  intro s t h
  have hs : extractCore (s.data.map upChar) = extractCore s.data := extractCore_up s.data
  have ht : extractCore (t.data.map upChar) = extractCore t.data := extractCore_up t.data
  rw [extract_groups_from_codes, extract_groups_from_codes, ← hs, ← ht, h]

/-- Claim C10, witness at a concrete pair of case-variant inputs. -/
theorem extract_groups_case_insensitive_witness :
    ("l5 cs -g4" : String).data.map upChar = ("L5 CS -G4" : String).data.map upChar ∧
    extract_groups_from_codes "l5 cs -g4" = extract_groups_from_codes "L5 CS -G4" :=
  ⟨by decide, extract_groups_case_insensitive.1 "l5 cs -g4" "L5 CS -G4" (by decide)⟩

/-- Claim C5: a group of rows sharing the session key in which every
Hour value is empty is excluded from the session result set entirely
and raises no error: the build returns an empty, successful result. -/
theorem empty_hours_group_omitted (r0 : ErpRow) (rs : List ErpRow)
    (hkey : ∀ r ∈ r0 :: rs, sessionKey r = sessionKey r0)
    (hemp : ∀ r ∈ r0 :: rs, norm r.hour = "") :
    build_sessions_for_cbs (r0 :: rs) = Except.ok [] := by
  rw [build_sessions_single_key r0 rs hkey]
  have hh : groupHours ((r0 :: rs).map normHour) = [] := by
    rw [groupHours]
    rw [List.filter_eq_nil_iff]
    intro a ha
    have ha2 : a ∈ ((r0 :: rs).map normHour).map (fun r => r.hour) := (mem_uniqueFirst _ _).1 ha
    rcases List.mem_map.1 ha2 with ⟨r2, hr2, rfl⟩
    rcases List.mem_map.1 hr2 with ⟨r, hr, rfl⟩
    have he : (normHour r).hour = "" := hemp r hr
    simp [he]
  rw [List.map_cons] at hh
  simp [processGroup, hh, parseAll, sortLe]

/-- Claim C5, witness: a two-row group whose Hour cells are blank. -/
theorem empty_hours_group_omitted_witness :
    build_sessions_for_cbs [exRow "", exRow "  "] = Except.ok [] :=
  empty_hours_group_omitted (exRow "") [exRow "  "] (by decide) (by decide)

/-- Claim C2: for a group of rows sharing the session key whose
nonempty Hour values all parse, the produced session starts at the
earliest parsed hour and ends at the latest parsed hour plus one hour,
both rendered as zero-padded HH:MM:SS; in particular Hours 08:00,
09:00, 10:00 give From 08:00:00 and To 11:00:00. -/
theorem session_span_start_end :
    (∀ (r0 : ErpRow) (rs : List ErpRow) (hours : List Nat),
      (∀ r ∈ r0 :: rs, sessionKey r = sessionKey r0) →
      parseAll (groupHours ((r0 :: rs).map normHour)) = some hours →
      hours ≠ [] →
      ∃ hmin hmax,
        hmin ∈ hours ∧ hmax ∈ hours ∧
        (∀ h ∈ hours, hmin ≤ h ∧ h ≤ hmax) ∧
        build_sessions_for_cbs (r0 :: rs) =
          Except.ok [{ row := normHour r0, fromTimeSlot := fmt_time_hhmmss hmin,
                       toTimeSlot := fmt_time_hhmmss (hmax + 60) }]) ∧
    build_sessions_for_cbs [exRow "08:00", exRow "09:00", exRow "10:00"] =
      Except.ok [{ row := exRow "08:00", fromTimeSlot := "08:00:00",
                   toTimeSlot := "11:00:00" }] := by
  refine ⟨?_, rfl⟩
  intro r0 rs hours hkey hparse hne
  rw [build_sessions_single_key r0 rs hkey]
  cases hsort : sortLe natLeB hours with
  | nil =>
    exfalso
    have hlen := (sortLe_perm natLeB hours).length_eq
    rw [hsort] at hlen
    exact hne (List.eq_nil_of_length_eq_zero hlen.symm)
  | cons h0 t =>
    have hsorted : (h0 :: t).Pairwise (· ≤ ·) := by
      rw [← hsort]
      exact pairwise_sortLe_nat hours
    have hperm : (h0 :: t).Perm hours := by
      rw [← hsort]
      exact sortLe_perm natLeB hours
    refine ⟨h0, lastOf h0 t, ?_, ?_, ?_, ?_⟩
    · exact hperm.mem_iff.1 (List.mem_cons_self _ _)
    · exact hperm.mem_iff.1 (lastOf_mem h0 t)
    · intro h hh
      have hh2 : h ∈ h0 :: t := hperm.mem_iff.2 hh
      constructor
      · rcases List.mem_cons.1 hh2 with rfl | hmem
        · exact le_refl _
        · exact List.rel_of_pairwise_cons hsorted hmem
      · exact le_lastOf_of_pairwise t h0 hsorted h hh2
    · rw [List.map_cons] at hparse
      simp [processGroup, hparse, hsort]

/-- Claim C2, witness: a two-row group with Hours 08:00 and 09:00. -/
theorem session_span_start_end_witness :
    ∃ hmin hmax,
      hmin ∈ [480, 540] ∧ hmax ∈ [480, 540] ∧
      (∀ h ∈ [480, 540], hmin ≤ h ∧ h ≤ hmax) ∧
      build_sessions_for_cbs [exRow "08:00", exRow "09:00"] =
        Except.ok [{ row := normHour (exRow "08:00"), fromTimeSlot := fmt_time_hhmmss hmin,
                     toTimeSlot := fmt_time_hhmmss (hmax + 60) }] :=
  session_span_start_end.1 (exRow "08:00") [exRow "09:00"] [480, 540]
    (by decide) (by rfl) (by decide)

/-- Claim C4 counterexample: an unparsable nonempty Hour value on one
row does not merely exclude that row or its session: it aborts the
whole build.  Alone, the well-formed row produces its session; adding
an unrelated row with Hour "morning" makes the whole run fail, so the
remaining session is not produced. -/
theorem hour_failure_aborts_counterexample :
    build_sessions_for_cbs [exRow "09:00"] =
      Except.ok [{ row := exRow "09:00", fromTimeSlot := "09:00:00",
                   toTimeSlot := "10:00:00" }] ∧
    build_sessions_for_cbs [exRow "09:00", exRowOther "morning"] = Except.error () :=
  ⟨rfl, rfl⟩

/-- Claim C4 amended: a nonempty Hour value that does not parse as a
time of day aborts the entire session aggregation with an error and no
sessions are produced at all; only blank Hour values are tolerated and
merely excluded from span computation. -/
theorem unparseable_hour_aborts (rows : List ErpRow)
    (hbad : ∃ r ∈ rows, norm r.hour ≠ "" ∧ parse_time_hhmm (norm r.hour) = none) :
    build_sessions_for_cbs rows = Except.error () := by
  rcases hbad with ⟨r, hr, hne, hpfail⟩
  simp only [build_sessions_for_cbs]
  apply processGroups_error_of_mem
  refine ⟨sessionKey (normHour r), ?_, ?_⟩
  · apply (mem_uniqueFirst _ _).2
    exact List.mem_map.2 ⟨normHour r, List.mem_map.2 ⟨r, hr, rfl⟩, rfl⟩
  · apply processGroup_error_of_badhour _ (normHour r)
    · refine List.mem_filter.2 ⟨List.mem_map.2 ⟨r, hr, rfl⟩, ?_⟩
      exact beq_iff_eq.mpr rfl
    · exact hne
    · exact hpfail

/-- Claim C4 amended, witness: one row with Hour "morning". -/
theorem unparseable_hour_aborts_witness :
    build_sessions_for_cbs [exRowOther "morning"] = Except.error () :=
  unparseable_hour_aborts [exRowOther "morning"]
    ⟨exRowOther "morning", by decide, by decide, by rfl⟩

/-- Claim C8: when both the mapping-table lookup and pattern decoding
yield an empty result, the final group name is the fallback, the
intake label followed by the normalised Students Sets text (the
f-string of the source, stripped); and the rendered label of pattern
decoding is empty exactly when the decoded cohort set is empty, so the
fallback appears only in that case. -/
theorem fallback_group_label :
    (∀ (gm : List GroupMapRow) (force : Bool) (intake ss : String),
      group_name_from_map (norm ss) gm = "" →
      build_group_name_from_codes (norm ss) intake = "" →
      final_group_name (some gm) force intake ss = pyStrip (intake ++ " " ++ norm ss)) ∧
    (∀ (force : Bool) (intake ss : String),
      build_group_name_from_codes (norm ss) intake = "" →
      final_group_name none force intake ss = pyStrip (intake ++ " " ++ norm ss)) ∧
    (∀ (s intake : String),
      build_group_name_from_codes s intake = "" ↔ extract_groups_from_codes s = []) ∧
    final_group_name none false "L5 Jan 26" "Evening  Cohort" = "L5 Jan 26 Evening Cohort" := by
  refine ⟨?_, ?_, ?_, by decide⟩
  · intro gm force intake ss hmap hcode
    simp [final_group_name, hmap, hcode]
  · intro force intake ss hcode
    simp [final_group_name, hcode]
  · intro s intake
    constructor
    · intro hempty
      by_cases hext : extract_groups_from_codes s = []
      · exact hext
      · exact absurd hempty (build_group_nonempty s intake hext)
    · intro hext
      simp [build_group_name_from_codes, hext]

/-- Claim C8, witness: an unmapped, uncoded Students Sets text with an
empty mapping table. -/
theorem fallback_group_label_witness :
    group_name_from_map (norm "Evening  Cohort") [] = "" ∧
    build_group_name_from_codes (norm "Evening  Cohort") "L5 Jan 26" = "" ∧
    final_group_name (some []) false "L5 Jan 26" "Evening  Cohort" =
      pyStrip ("L5 Jan 26" ++ " " ++ norm "Evening  Cohort") :=
  ⟨rfl, rfl, fallback_group_label.1 [] false "L5 Jan 26" "Evening  Cohort" rfl rfl⟩
